import Mathlib

/-!
Verification of the Safe.Env repository (src/encrypt_env.js).

The file shallowly embeds the substantive logic of `encrypt_env.js`:
the hex/`iv:ciphertext` envelope format, the AES-256-CBC transform
(modelled over an abstract 16-byte block permutation, since the block
cipher itself is Node's `crypto` library, external to the repository;
CBC chaining, PKCS#7 padding and the padding check are modelled after
the documented OpenSSL/Node behaviour the code relies on), and the
key/metadata orchestration of `main`'s encrypt / decrypt / rotate
branches.  File-system effects are modelled as explicit state and an
event trace; randomness (`crypto.randomBytes`), the git identity and
the clock are explicit inputs.

Byte strings are `List Nat` of byte values; textual file contents are
byte lists of character codes (the delimiter `:` is code 58).
-/

-- DecidableEq for `Except`, needed to evaluate results by `decide`.
deriving instance DecidableEq for Except

/-- Low hex digit character (code) for a nibble, as produced by
Node's `Buffer.toString("hex")` (lower-case digits). -/
def toHexDigit (n : Nat) : Nat :=
  if n < 10 then 48 + n else 87 + n

/-- Value of a hex digit character, if valid.  Node's hex decoding
accepts `0-9`, `a-f` and `A-F`. -/
def fromHexDigit (c : Nat) : Option Nat :=
  if 48 ≤ c ∧ c ≤ 57 then some (c - 48)
  else if 97 ≤ c ∧ c ≤ 102 then some (c - 87)
  else if 65 ≤ c ∧ c ≤ 70 then some (c - 55)
  else none

/-- Hex encoding of a byte list, as `Buffer.toString("hex")`:
two lower-case hex characters per byte. -/
def hexEncode : List Nat → List Nat
  | [] => []
  | b :: bs => toHexDigit (b / 16) :: toHexDigit (b % 16) :: hexEncode bs

/-- Hex decoding with Node's `Buffer.from(str, "hex")` semantics:
decode pairs of hex digits from the left and stop silently at the
first invalid pair or at an odd trailing character. -/
def hexDecode : List Nat → List Nat
  | c1 :: c2 :: rest =>
    match fromHexDigit c1, fromHexDigit c2 with
    | some h, some l => (16 * h + l) :: hexDecode rest
    | _, _ => []
  | _ => []

/-- JavaScript `String.prototype.split` with a one-character separator:
`"".split(sep) = [""]`, separators delimit (possibly empty) fields. -/
def jsSplit (sep : Nat) : List Nat → List (List Nat)
  | [] => [[]]
  | c :: cs =>
    if c = sep then [] :: jsSplit sep cs
    else
      match jsSplit sep cs with
      | [] => [[c]]
      | p :: ps => (c :: p) :: ps

/-- Pointwise XOR of two byte lists (truncating to the shorter). -/
def xorBytes (a b : List Nat) : List Nat :=
  List.zipWith (fun x y => x ^^^ y) a b

/-- An abstract 16-byte block cipher: the AES-256 primitive used by
`crypto.createCipheriv("aes-256-cbc", ...)` is external library code,
so it is abstracted as a pair of keyed block transforms.  Its
contract is stated separately as `GoodCipher`. -/
structure BlockCipher where
  encB : List Nat → List Nat → List Nat
  decB : List Nat → List Nat → List Nat

/-- Contract of the external block cipher: on 16-byte blocks the
encryption direction preserves length and byte range, and decryption
inverts encryption under the same key. -/
def GoodCipher (C : BlockCipher) : Prop :=
  (∀ k b, b.length = 16 → (C.encB k b).length = 16) ∧
  (∀ k b, b.length = 16 → (∀ x ∈ b, x < 256) → ∀ x ∈ C.encB k b, x < 256) ∧
  (∀ k b, b.length = 16 → C.decB k (C.encB k b) = b)

/-- Splitting a byte list into 16-byte chunks, fuelled so that it is
structurally recursive (the fuel is instantiated with the length). -/
def chunk16Fuel : Nat → List Nat → List (List Nat)
  | 0, _ => []
  | _, [] => []
  | f + 1, bs => bs.take 16 :: chunk16Fuel f (bs.drop 16)

/-- Splitting a byte list into 16-byte chunks (last chunk may be short). -/
def chunk16 (bs : List Nat) : List (List Nat) :=
  chunk16Fuel bs.length bs

/-- CBC-mode encryption over 16-byte blocks: each plaintext block is
XORed with the previous ciphertext block (initially the IV) before
the block cipher is applied. -/
def cbcEncBlocks (C : BlockCipher) (key : List Nat) : List Nat → List (List Nat) → List (List Nat)
  | _, [] => []
  | prev, b :: bs =>
    let c := C.encB key (xorBytes prev b)
    c :: cbcEncBlocks C key c bs

/-- CBC-mode decryption over 16-byte blocks. -/
def cbcDecBlocks (C : BlockCipher) (key : List Nat) : List Nat → List (List Nat) → List (List Nat)
  | _, [] => []
  | prev, c :: cs => xorBytes prev (C.decB key c) :: cbcDecBlocks C key c cs

/-- PKCS#7 pad length for a message of length `n` (1..16). -/
def padLen (n : Nat) : Nat := 16 - n % 16

/-- PKCS#7 padding, as applied by Node's cipher with auto padding:
append `p` copies of the byte `p` where `p = 16 - n % 16`. -/
def pkcs7pad (bs : List Nat) : List Nat :=
  bs ++ List.replicate (padLen bs.length) (padLen bs.length)

/-- PKCS#7 unpadding with the OpenSSL validity check performed by
`decipher.final()`: the last byte `p` must be in 1..16 and the last
`p` bytes must all equal `p`; otherwise the decryption is rejected. -/
def pkcs7unpad (bs : List Nat) : Option (List Nat) :=
  match bs.getLast? with
  | none => none
  | some p =>
    if 1 ≤ p ∧ p ≤ 16 ∧ p ≤ bs.length ∧ (bs.drop (bs.length - p)).all (fun x => x == p)
    then some (bs.take (bs.length - p)) else none

/-- Failure modes of the decryption transform, mirroring the throws of
`decryptFile` (src/encrypt_env.js lines 53-69): `typeErr` is the
`TypeError` from `decipher.update(undefined, "hex")` when the envelope
has no delimiter; `badKey` / `badIv` are the `createDecipheriv` length
checks; `oddHexLen` is Node's rejection of an odd-length hex string in
`decipher.update`; `badCtLen` is the wrong-final-block-length error;
`badPad` is the bad-decrypt padding rejection in `decipher.final`. -/
inductive CErr where
  | typeErr
  | badKey
  | badIv
  | oddHexLen
  | badCtLen
  | badPad
deriving DecidableEq, Repr

/-- The encryption transform of `encryptFile` (src/encrypt_env.js
lines 33-51), from file read to the written string: draw an IV,
AES-256-CBC-encrypt the data under the hex-decoded key, and produce
`hex(iv) ++ ":" ++ hex(ciphertext)`. -/
def encryptTransform (C : BlockCipher) (keyHex iv data : List Nat) : List Nat :=
  hexEncode iv ++ 58 :: hexEncode
    (List.flatten (cbcEncBlocks C (hexDecode keyHex) iv (chunk16 (pkcs7pad data))))

/-- The decryption transform of `decryptFile` (src/encrypt_env.js
lines 53-69): `const [ivHex, encryptedText] = data.split(":")` binds
`ivHex` to the first split component and `encryptedText` to the second
one (or `undefined` when the split produced a single component); then
`createDecipheriv` validates key and IV lengths, `update(.., "hex")`
rejects odd-length hex and otherwise decodes it with Node's truncating
hex semantics, and `final()` checks block alignment and padding. -/
def decryptTransform (C : BlockCipher) (keyHex data : List Nat) : Except CErr (List Nat) :=
  if (hexDecode keyHex).length ≠ 32 then .error .badKey
  else if (hexDecode ((jsSplit 58 data).headD [])).length ≠ 16 then .error .badIv
  else match (jsSplit 58 data)[1]? with
    | none => .error .typeErr
    | some ctHex =>
      if ctHex.length % 2 ≠ 0 then .error .oddHexLen
      else if (hexDecode ctHex).length = 0 ∨ (hexDecode ctHex).length % 16 ≠ 0 then
        .error .badCtLen
      else match pkcs7unpad (List.flatten (cbcDecBlocks C (hexDecode keyHex)
          (hexDecode ((jsSplit 58 data).headD [])) (chunk16 (hexDecode ctHex)))) with
        | none => .error .badPad
        | some p => .ok p

/-- Definition following the words of claim C8: split on the FIRST
occurrence of the delimiter, treat everything before it as the iv hex
and everything after it (including any further delimiter characters)
as the ciphertext hex, then perform the same inverse transform. -/
def claimFirstSplitDecrypt (C : BlockCipher) (keyHex data : List Nat) : Except CErr (List Nat) :=
  if (hexDecode keyHex).length ≠ 32 then .error .badKey
  else if (hexDecode (data.takeWhile (fun c => c != 58))).length ≠ 16 then .error .badIv
  else match (if 58 ∈ data then some ((data.dropWhile (fun c => c != 58)).tail) else none) with
    | none => .error .typeErr
    | some ctHex =>
      if ctHex.length % 2 ≠ 0 then .error .oddHexLen
      else if (hexDecode ctHex).length = 0 ∨ (hexDecode ctHex).length % 16 ≠ 0 then
        .error .badCtLen
      else match pkcs7unpad (List.flatten (cbcDecBlocks C (hexDecode keyHex)
          (hexDecode (data.takeWhile (fun c => c != 58))) (chunk16 (hexDecode ctHex)))) with
        | none => .error .badPad
        | some p => .ok p

/-- Definition following the amended claim C8: the iv hex is the text
before the first delimiter and the ciphertext hex is the text BETWEEN
the first and the second delimiter (to the end if there is no second
one); content after a second delimiter is ignored; a missing delimiter
fails. -/
def secondSegmentDecrypt (C : BlockCipher) (keyHex data : List Nat) : Except CErr (List Nat) :=
  if (hexDecode keyHex).length ≠ 32 then .error .badKey
  else if (hexDecode (data.takeWhile (fun c => c != 58))).length ≠ 16 then .error .badIv
  else match (if 58 ∈ data then
      some (((data.dropWhile (fun c => c != 58)).tail).takeWhile (fun c => c != 58))
    else none) with
    | none => .error .typeErr
    | some ctHex =>
      if ctHex.length % 2 ≠ 0 then .error .oddHexLen
      else if (hexDecode ctHex).length = 0 ∨ (hexDecode ctHex).length % 16 ≠ 0 then
        .error .badCtLen
      else match pkcs7unpad (List.flatten (cbcDecBlocks C (hexDecode keyHex)
          (hexDecode (data.takeWhile (fun c => c != 58))) (chunk16 (hexDecode ctHex)))) with
        | none => .error .badPad
        | some p => .ok p

/-- Keystream of the concrete witness cipher: the first 16 key bytes
(reduced mod 256, zero-extended). -/
def keyStream (k : List Nat) : List Nat :=
  (k.map (fun b => b % 256) ++ List.replicate 16 0).take 16

/-- A concrete executable instance of the abstract block cipher, used
to run the embedded program on concrete inputs (a keyed XOR
involution; it satisfies `GoodCipher`). -/
def xorCipher : BlockCipher :=
  ⟨fun k b => xorBytes (keyStream k) b, fun k b => xorBytes (keyStream k) b⟩

/-- The key record stored in `env_key.json`: a 32-byte key and a
16-byte validation token, both kept hex-encoded as in the JSON file
(src/encrypt_env.js lines 130-135). -/
structure KeyRecord where
  key : List Nat
  validation_token : List Nat
deriving DecidableEq, Repr

/-- The metadata (binding) record written to `.env.encrypt`
(src/encrypt_env.js lines 97-109). -/
structure EnvMetadata where
  last_encrypted_by : String
  key_path : String
  key_status : String
  validation_token : List Nat
  timestamp : String
deriving DecidableEq, Repr

/-- The file-system state touched by one invocation: the key file (with
its permission mode and the existence of its parent directory), the
protected `.env` file (content and mode) and the `.env.encrypt`
metadata file. -/
structure FsState where
  keyFile : Option KeyRecord
  keyFileMode : Option Nat
  keyDirExists : Bool
  envFile : Option (List Nat)
  envFileMode : Option Nat
  metaFile : Option EnvMetadata
deriving DecidableEq, Repr

/-- Observable actions of a run, in order: a key-file write, an
attempted cipher construction (`createCipheriv` / `createDecipheriv`),
a write of the protected file, a metadata write. -/
inductive Event where
  | savedKey (kd : KeyRecord)
  | cipherOp
  | wroteEnv (content : List Nat)
  | wroteMeta (m : EnvMetadata)
deriving DecidableEq, Repr

/-- Errors thrown by `main`'s branches (src/encrypt_env.js). -/
inductive Err where
  | keyNotFound
  | fileNotFound
  | metadataNotFound
  | bindingMismatch (lastBy : String) (stamp : String)
  | gitNotConfigured
  | cipherError
  | decryptionFailed (e : CErr)
deriving DecidableEq, Repr

/-- Result of one invocation: final state, event trace, outcome. -/
structure RunResult where
  st : FsState
  trace : List Event
  res : Except Err Unit
deriving DecidableEq, Repr

/-- The message built by `validateKey` on a token mismatch
(src/encrypt_env.js lines 89-95): it interpolates the stale metadata's
`last_encrypted_by` and `timestamp` fields. -/
def validationFailureMessage (lastBy stamp : String) : String :=
  "Validation failed. The key used is not compatible with the metadata. Last encrypted by: "
    ++ lastBy ++ " at " ++ stamp

/-- `saveKey` (src/encrypt_env.js lines 24-27): `mkdirSync` with
`recursive: true` creates any missing parent directories, then the key
file is written with mode `0o600`. -/
def saveKeyM (kd : KeyRecord) (s : FsState) : FsState × List Event :=
  ({ s with keyDirExists := true, keyFile := some kd, keyFileMode := some 0o600 },
   [Event.savedKey kd])

/-- `validateKey` (src/encrypt_env.js lines 89-95): throws when the
key's token differs from the metadata's token, naming the metadata's
operator and timestamp. -/
def validateKeyM (kd : KeyRecord) (m : EnvMetadata) : Except Err Unit :=
  if kd.validation_token ≠ m.validation_token then
    .error (.bindingMismatch m.last_encrypted_by m.timestamp)
  else .ok ()

/-- `encryptFile` (src/encrypt_env.js lines 33-51) as a state step:
fail if the target is missing; otherwise construct the cipher (which
validates the key length), encrypt, and overwrite the file (mode
`0o600`). -/
def encryptFileM (C : BlockCipher) (keyHex iv : List Nat) (s : FsState) : RunResult :=
  match s.envFile with
  | none => ⟨s, [], .error .fileNotFound⟩
  | some data =>
    if (hexDecode keyHex).length = 32 then
      ⟨{ s with envFile := some (encryptTransform C keyHex iv data),
                envFileMode := some 0o600 },
       [Event.cipherOp, Event.wroteEnv (encryptTransform C keyHex iv data)], .ok ()⟩
    else ⟨s, [Event.cipherOp], .error .cipherError⟩

/-- `decryptFile` (src/encrypt_env.js lines 53-69) as a state step:
fail if the target is missing; otherwise run the inverse transform and
overwrite the file only when the whole transform succeeded. -/
def decryptFileM (C : BlockCipher) (keyHex : List Nat) (s : FsState) : RunResult :=
  match s.envFile with
  | none => ⟨s, [], .error .fileNotFound⟩
  | some data =>
    match decryptTransform C keyHex data with
    | .error e => ⟨s, [Event.cipherOp], .error (.decryptionFailed e)⟩
    | .ok p =>
      ⟨{ s with envFile := some p, envFileMode := some 0o600 },
       [Event.cipherOp, Event.wroteEnv p], .ok ()⟩

/-- `updateMetadata` (src/encrypt_env.js lines 97-109): re-load the key
file, resolve the git identity (failing the whole operation when git is
not configured), then overwrite `.env.encrypt`. -/
def updateMetadataM (keyPath : String) (git : Option String) (now : String)
    (rotated : Bool) (s : FsState) : RunResult :=
  match s.keyFile with
  | none => ⟨s, [], .error .keyNotFound⟩
  | some kd =>
    match git with
    | none => ⟨s, [], .error .gitNotConfigured⟩
    | some user =>
      let m : EnvMetadata :=
        { last_encrypted_by := user, key_path := keyPath,
          key_status := if rotated then "rotated" else "stable",
          validation_token := kd.validation_token, timestamp := now }
      ⟨{ s with metaFile := some m }, [Event.wroteMeta m], .ok ()⟩

/-- Shared tail of the encrypt and rotate branches of `main`:
`encryptFile(envFilePath, key)` then `updateMetadata(keyPath, rotated)`
(src/encrypt_env.js lines 140-141 and 155-156). -/
def encryptThenMeta (C : BlockCipher) (kd : KeyRecord) (git : Option String)
    (now keyPath : String) (iv : List Nat) (rotated : Bool)
    (s : FsState) (ev0 : List Event) : RunResult :=
  let r := encryptFileM C kd.key iv s
  match r.res with
  | .error e => ⟨r.st, ev0 ++ r.trace, .error e⟩
  | .ok _ =>
    let m := updateMetadataM keyPath git now rotated r.st
    ⟨m.st, ev0 ++ r.trace ++ m.trace, m.res⟩

/-- Random inputs of one invocation: the bytes drawn by
`crypto.randomBytes` for a new key, a new validation token, and the IV. -/
structure Entropy where
  newKeyBytes : List Nat
  newTokenBytes : List Nat
  iv : List Nat
deriving Repr

/-- The encrypt branch of `main` (src/encrypt_env.js lines 129-142):
create and save a fresh key record when none exists (key and token are
`randomBytes(32)` / `randomBytes(16)`, stored hex-encoded), otherwise
load the existing one; then encrypt the file and write metadata with
status "stable". -/
def runEncrypt (C : BlockCipher) (ent : Entropy) (git : Option String)
    (now keyPath : String) (s : FsState) : RunResult :=
  match s.keyFile with
  | none =>
    let kd : KeyRecord := ⟨hexEncode ent.newKeyBytes, hexEncode ent.newTokenBytes⟩
    let p := saveKeyM kd s
    encryptThenMeta C kd git now keyPath ent.iv false p.1 p.2
  | some kd => encryptThenMeta C kd git now keyPath ent.iv false s []

/-- The decrypt branch of `main` (src/encrypt_env.js lines 143-149):
load the key, read the metadata, run the binding check, and only then
decrypt the file. -/
def runDecrypt (C : BlockCipher) (s : FsState) : RunResult :=
  match s.keyFile with
  | none => ⟨s, [], .error .keyNotFound⟩
  | some kd =>
    match s.metaFile with
    | none => ⟨s, [], .error .metadataNotFound⟩
    | some m =>
      match validateKeyM kd m with
      | .error e => ⟨s, [], .error e⟩
      | .ok _ => decryptFileM C kd.key s

/-- The rotate branch of `main` (src/encrypt_env.js lines 150-160):
unconditionally generate a fresh key and token, save them, then
`encryptFile` over the CURRENT file content (the code does not decrypt
first), then write metadata with status "rotated". -/
def runRotate (C : BlockCipher) (ent : Entropy) (git : Option String)
    (now keyPath : String) (s : FsState) : RunResult :=
  let kd : KeyRecord := ⟨hexEncode ent.newKeyBytes, hexEncode ent.newTokenBytes⟩
  let p := saveKeyM kd s
  encryptThenMeta C kd git now keyPath ent.iv true p.1 p.2

/-- Initial state of end-to-end scenario A: the protected file `.env`
contains the plaintext `secret=1`, and no key or metadata exists. -/
def scenarioStart : FsState :=
  ⟨none, none, false, some [115, 101, 99, 114, 101, 116, 61, 49], none, none⟩

/-- Random draws of the scenario's first encrypt. -/
def entA : Entropy := ⟨List.replicate 32 1, List.replicate 16 2, List.replicate 16 3⟩

/-- Random draws of the scenario's rotate. -/
def entC : Entropy := ⟨List.replicate 32 4, List.replicate 16 5, List.replicate 16 6⟩

/-- The envelope written by the scenario's first encrypt. -/
def envelopeA : List Nat :=
  encryptTransform xorCipher (hexEncode (List.replicate 32 1)) (List.replicate 16 3)
    [115, 101, 99, 114, 101, 116, 61, 49]

/-- Result of the scenario's first encrypt (scenario A). -/
def afterEncrypt : RunResult :=
  runEncrypt xorCipher entA (some "alice") "t1" "kp" scenarioStart

/-- Result of rotating right after scenario A (scenario C). -/
def afterRotate : RunResult :=
  runRotate xorCipher entC (some "alice") "t2" "kp" afterEncrypt.st

/-- Result of decrypting right after the rotate (scenario C). -/
def afterRotateDecrypt : RunResult := runDecrypt xorCipher afterRotate.st

/-! ## Basic lemmas about the hex codec and the JS split -/

theorem toHexDigit_ne_sep (n : Nat) : toHexDigit n ≠ 58 := by
  unfold toHexDigit; split <;> omega

theorem sep_not_mem_hexEncode (bs : List Nat) : 58 ∉ hexEncode bs := by
  induction bs with
  | nil => simp [hexEncode]
  | cons b bs ih =>
    intro h
    simp only [hexEncode, List.mem_cons] at h
    rcases h with h | h | h
    · exact toHexDigit_ne_sep _ h.symm
    · exact toHexDigit_ne_sep _ h.symm
    · exact ih h

theorem fromHexDigit_toHexDigit (n : Nat) (h : n < 16) :
    fromHexDigit (toHexDigit n) = some n := by
  unfold toHexDigit fromHexDigit
  by_cases h10 : n < 10
  · rw [if_pos h10, if_pos (by omega : 48 ≤ 48 + n ∧ 48 + n ≤ 57)]
    congr 1
    omega
  · rw [if_neg h10, if_neg (by omega : ¬(48 ≤ 87 + n ∧ 87 + n ≤ 57)),
      if_pos (by omega : 97 ≤ 87 + n ∧ 87 + n ≤ 102)]
    congr 1
    omega

theorem hexDecode_hexEncode (bs : List Nat) (h : ∀ b ∈ bs, b < 256) :
    hexDecode (hexEncode bs) = bs := by
  induction bs with
  | nil => rfl
  | cons b bs ih =>
    have hb : b < 256 := h b (List.mem_cons_self b bs)
    have h1 : b / 16 < 16 := by omega
    have h2 : b % 16 < 16 := by omega
    simp only [hexEncode, hexDecode, fromHexDigit_toHexDigit _ h1,
      fromHexDigit_toHexDigit _ h2]
    rw [ih (fun x hx => h x (List.mem_cons_of_mem _ hx))]
    congr 1
    omega

theorem hexEncode_length (bs : List Nat) : (hexEncode bs).length = 2 * bs.length := by
  induction bs with
  | nil => rfl
  | cons b bs ih => simp only [hexEncode, List.length_cons, ih]; omega

theorem jsSplit_ne_nil (sep : Nat) (l : List Nat) : jsSplit sep l ≠ [] := by
  cases l with
  | nil => simp [jsSplit]
  | cons c cs =>
    unfold jsSplit
    split
    · simp
    · split <;> simp

theorem jsSplit_headD (sep : Nat) (l : List Nat) :
    (jsSplit sep l).headD [] = l.takeWhile (fun c => c != sep) := by
  induction l with
  | nil => rfl
  | cons c cs ih =>
    unfold jsSplit
    by_cases h : c = sep
    · subst h
      simp [List.takeWhile_cons]
    · rw [if_neg h]
      rcases hsplit : jsSplit sep cs with _ | ⟨p, ps⟩
      · exact absurd hsplit (jsSplit_ne_nil sep cs)
      · rw [hsplit] at ih
        simp only [List.headD] at ih ⊢
        simp [List.takeWhile_cons, h, ih]

theorem jsSplit_getElem1 (sep : Nat) (l : List Nat) :
    (jsSplit sep l)[1]? =
      if sep ∈ l then
        some (((l.dropWhile (fun c => c != sep)).tail).takeWhile (fun c => c != sep))
      else none := by
  induction l with
  | nil => simp [jsSplit]
  | cons c cs ih =>
    by_cases h : c = sep
    · subst h
      unfold jsSplit
      rw [if_pos rfl, if_pos (List.mem_cons_self c cs)]
      rcases hsplit : jsSplit c cs with _ | ⟨p, ps⟩
      · exact absurd hsplit (jsSplit_ne_nil c cs)
      · have hh := jsSplit_headD c cs
        rw [hsplit] at hh
        simp only [List.headD] at hh
        simp [List.dropWhile_cons, hh]
    · have hmem : (sep ∈ c :: cs) ↔ (sep ∈ cs) := by
        simp only [List.mem_cons]
        constructor
        · rintro (rfl | hm)
          · exact absurd rfl h
          · exact hm
        · exact Or.inr
      unfold jsSplit
      rw [if_neg h]
      rcases hsplit : jsSplit sep cs with _ | ⟨p, ps⟩
      · exact absurd hsplit (jsSplit_ne_nil sep cs)
      · rw [hsplit] at ih
        have hbne : (c != sep) = true := by simp [h]
        simp only [List.getElem?_cons_succ, List.getElem?_cons_zero] at ih ⊢
        rw [ih]
        by_cases hm : sep ∈ cs
        · rw [if_pos hm, if_pos (hmem.mpr hm)]
          simp [List.dropWhile_cons, hbne]
        · rw [if_neg hm, if_neg (fun hh => hm (hmem.mp hh))]

theorem jsSplit_not_mem (sep : Nat) (l : List Nat) (h : sep ∉ l) : jsSplit sep l = [l] := by
  induction l with
  | nil => rfl
  | cons c cs ih =>
    have hc : ¬ c = sep := fun e => h (by simp [e])
    unfold jsSplit
    rw [if_neg hc, ih (fun hm => h (List.mem_cons_of_mem _ hm))]

theorem jsSplit_append (sep : Nat) (A B : List Nat) (h : sep ∉ A) :
    jsSplit sep (A ++ sep :: B) = A :: jsSplit sep B := by
  induction A with
  | nil => simp [jsSplit]
  | cons a A ih =>
    have ha : ¬ a = sep := fun e => h (by simp [e])
    have ihh := ih (fun hm => h (List.mem_cons_of_mem _ hm))
    show jsSplit sep (a :: (A ++ sep :: B)) = (a :: A) :: jsSplit sep B
    conv_lhs => simp only [jsSplit]
    rw [if_neg ha, ihh]

theorem jsSplit_envelope (ivHex ctHex : List Nat) (hiv : 58 ∉ ivHex) (hct : 58 ∉ ctHex) :
    jsSplit 58 (ivHex ++ 58 :: ctHex) = [ivHex, ctHex] := by
  rw [jsSplit_append 58 ivHex ctHex hiv, jsSplit_not_mem 58 ctHex hct]

theorem xorBytes_cancel (a : List Nat) : ∀ b : List Nat, a.length = b.length →
    xorBytes a (xorBytes a b) = b := by
  induction a with
  | nil =>
    intro b h
    cases b with
    | nil => rfl
    | cons y ys => simp at h
  | cons x xs ih =>
    intro b h
    cases b with
    | nil => simp at h
    | cons y ys =>
      simp only [List.length_cons] at h
      simp only [xorBytes, List.zipWith_cons_cons]
      rw [← Nat.xor_assoc, Nat.xor_self, Nat.zero_xor]
      have hx := ih ys (by omega)
      simp only [xorBytes] at hx
      rw [hx]

theorem xorBytes_length (a b : List Nat) :
    (xorBytes a b).length = min a.length b.length := by
  simp [xorBytes, List.length_zipWith]

theorem xorBytes_lt (a : List Nat) : ∀ b : List Nat, (∀ x ∈ a, x < 256) →
    (∀ x ∈ b, x < 256) → ∀ x ∈ xorBytes a b, x < 256 := by
  induction a with
  | nil => intro b _ _; simp [xorBytes]
  | cons x xs ih =>
    intro b ha hb
    cases b with
    | nil => simp [xorBytes]
    | cons y ys =>
      simp only [xorBytes, List.zipWith_cons_cons, List.mem_cons]
      rintro z (rfl | hz)
      · have h1 : x < 256 := ha x (by simp)
        have h2 : y < 256 := hb y (by simp)
        have h8 : (256 : Nat) = 2 ^ 8 := by norm_num
        rw [h8] at h1 h2 ⊢
        exact Nat.xor_lt_two_pow h1 h2
      · exact ih ys (fun u hu => ha u (List.mem_cons_of_mem _ hu))
          (fun u hu => hb u (List.mem_cons_of_mem _ hu)) z hz

/-! ## Chunking, padding and CBC lemmas -/

theorem chunk16Fuel_nil (f : Nat) : chunk16Fuel f [] = [] := by
  cases f <;> rfl

theorem chunk16Fuel_flatten (blocks : List (List Nat)) :
    ∀ fuel, (∀ b ∈ blocks, b.length = 16) → blocks.flatten.length ≤ fuel →
    chunk16Fuel fuel blocks.flatten = blocks := by
  induction blocks with
  | nil => intro fuel _ _; simpa using chunk16Fuel_nil fuel
  | cons b bs ih =>
    intro fuel hlen hfuel
    have hb : b.length = 16 := hlen b (by simp)
    simp only [List.flatten_cons, List.length_append, hb] at hfuel
    cases fuel with
    | zero => omega
    | succ f =>
      obtain ⟨y, ys, rfl⟩ : ∃ y ys, b = y :: ys := by
        cases b with
        | nil => simp at hb
        | cons y ys => exact ⟨y, ys, rfl⟩
      rw [List.flatten_cons, List.cons_append]
      simp only [chunk16Fuel]
      rw [← List.cons_append, List.take_left' hb, List.drop_left' hb]
      rw [ih f (fun u hu => hlen u (List.mem_cons_of_mem _ hu)) (by omega)]

theorem chunk16_flatten (blocks : List (List Nat)) (h : ∀ b ∈ blocks, b.length = 16) :
    chunk16 blocks.flatten = blocks :=
  chunk16Fuel_flatten blocks _ h (Nat.le_refl _)

theorem flatten_chunk16Fuel : ∀ (fuel : Nat) (bs : List Nat), bs.length ≤ fuel →
    (chunk16Fuel fuel bs).flatten = bs := by
  intro fuel
  induction fuel with
  | zero =>
    intro bs h
    have : bs = [] := List.length_eq_zero.mp (by omega)
    subst this
    rfl
  | succ f ih =>
    intro bs h
    cases bs with
    | nil => rfl
    | cons x xs =>
      simp only [chunk16Fuel, List.flatten_cons]
      have hdrop : (List.drop 16 (x :: xs)).length ≤ f := by
        rw [List.length_drop, List.length_cons]
        simp only [List.length_cons] at h
        omega
      rw [ih _ hdrop]
      exact List.take_append_drop _ _

theorem flatten_chunk16 (bs : List Nat) : (chunk16 bs).flatten = bs :=
  flatten_chunk16Fuel _ _ (Nat.le_refl _)

theorem chunk16Fuel_lengths : ∀ (fuel : Nat) (bs : List Nat), bs.length ≤ fuel →
    bs.length % 16 = 0 → ∀ b ∈ chunk16Fuel fuel bs, b.length = 16 := by
  intro fuel
  induction fuel with
  | zero => intro bs _ _ b hb; simp [chunk16Fuel] at hb
  | succ f ih =>
    intro bs hf hm b hb
    cases bs with
    | nil => simp [chunk16Fuel] at hb
    | cons x xs =>
      simp only [chunk16Fuel, List.mem_cons] at hb
      simp only [List.length_cons] at hf hm
      rcases hb with rfl | hb
      · rw [List.length_take, List.length_cons]
        omega
      · refine ih _ ?_ ?_ b hb
        · rw [List.length_drop, List.length_cons]; omega
        · rw [List.length_drop, List.length_cons]; omega

theorem chunk16_lengths (bs : List Nat) (h : bs.length % 16 = 0) :
    ∀ b ∈ chunk16 bs, b.length = 16 :=
  chunk16Fuel_lengths _ _ (Nat.le_refl _) h

theorem chunk16Fuel_subset : ∀ (fuel : Nat) (bs : List Nat) (b : List Nat),
    b ∈ chunk16Fuel fuel bs → ∀ x ∈ b, x ∈ bs := by
  intro fuel
  induction fuel with
  | zero => intro bs b hb; simp [chunk16Fuel] at hb
  | succ f ih =>
    intro bs b hb x hx
    cases bs with
    | nil => simp [chunk16Fuel] at hb
    | cons y ys =>
      simp only [chunk16Fuel, List.mem_cons] at hb
      rcases hb with rfl | hb
      · exact List.take_subset _ _ hx
      · exact List.drop_subset _ _ (ih _ b hb x hx)

theorem chunk16_subset (bs b : List Nat) (hb : b ∈ chunk16 bs) : ∀ x ∈ b, x ∈ bs :=
  chunk16Fuel_subset _ _ b hb

theorem flatten_length_16 (blocks : List (List Nat)) (h : ∀ b ∈ blocks, b.length = 16) :
    blocks.flatten.length = 16 * blocks.length := by
  induction blocks with
  | nil => rfl
  | cons b bs ih =>
    simp only [List.flatten_cons, List.length_append, List.length_cons,
      h b (by simp), ih (fun u hu => h u (List.mem_cons_of_mem _ hu))]
    omega

theorem chunk16_ne_nil (x : Nat) (xs : List Nat) : chunk16 (x :: xs) ≠ [] := by
  simp [chunk16, chunk16Fuel]

theorem padLen_pos (n : Nat) : 1 ≤ padLen n := by unfold padLen; omega

theorem padLen_le (n : Nat) : padLen n ≤ 16 := by unfold padLen; omega

theorem pkcs7pad_length (bs : List Nat) :
    (pkcs7pad bs).length = bs.length + padLen bs.length := by
  simp [pkcs7pad]

theorem pkcs7pad_mod (bs : List Nat) : (pkcs7pad bs).length % 16 = 0 := by
  rw [pkcs7pad_length]; unfold padLen; omega

theorem pkcs7pad_pos (bs : List Nat) : 0 < (pkcs7pad bs).length := by
  rw [pkcs7pad_length]
  have := padLen_pos bs.length
  omega

theorem pkcs7pad_lt (bs : List Nat) (h : ∀ x ∈ bs, x < 256) :
    ∀ x ∈ pkcs7pad bs, x < 256 := by
  intro x hx
  rcases List.mem_append.mp hx with hx | hx
  · exact h x hx
  · have hxp := List.eq_of_mem_replicate hx
    subst hxp
    have := padLen_le bs.length
    omega

theorem getLast?_replicate_pos (n x : Nat) (h : 0 < n) :
    (List.replicate n x).getLast? = some x := by
  cases n with
  | zero => omega
  | succ m =>
    rw [List.replicate_succ', List.getLast?_append]
    rfl

theorem pkcs7unpad_some (bs : List Nat) (p : Nat) (h : bs.getLast? = some p) :
    pkcs7unpad bs =
      if 1 ≤ p ∧ p ≤ 16 ∧ p ≤ bs.length ∧ (bs.drop (bs.length - p)).all (fun x => x == p)
      then some (bs.take (bs.length - p)) else none := by
  unfold pkcs7unpad
  rw [h]

theorem pkcs7unpad_pkcs7pad (bs : List Nat) : pkcs7unpad (pkcs7pad bs) = some bs := by
  have hp1 := padLen_pos bs.length
  have hp16 := padLen_le bs.length
  have hlast : (pkcs7pad bs).getLast? = some (padLen bs.length) := by
    rw [pkcs7pad, List.getLast?_append, getLast?_replicate_pos _ _ hp1]
    rfl
  have hlen : (pkcs7pad bs).length = bs.length + padLen bs.length := pkcs7pad_length bs
  have hsub : (pkcs7pad bs).length - padLen bs.length = bs.length := by omega
  rw [pkcs7unpad_some _ _ hlast]
  rw [if_pos]
  · rw [hsub, pkcs7pad, List.take_left' rfl]
  · refine ⟨hp1, hp16, by omega, ?_⟩
    rw [hsub, pkcs7pad, List.drop_left' rfl]
    simp [List.all_eq_true]

theorem cbcEncBlocks_length (C : BlockCipher) (k : List Nat) :
    ∀ (blocks : List (List Nat)) (prev : List Nat),
    (cbcEncBlocks C k prev blocks).length = blocks.length := by
  intro blocks
  induction blocks with
  | nil => intro prev; rfl
  | cons b bs ih => intro prev; simp only [cbcEncBlocks, List.length_cons, ih]

theorem cbcEncBlocks_block_len (C : BlockCipher) (hC : GoodCipher C) (k : List Nat) :
    ∀ (blocks : List (List Nat)) (prev : List Nat), prev.length = 16 →
    (∀ b ∈ blocks, b.length = 16) →
    ∀ c ∈ cbcEncBlocks C k prev blocks, c.length = 16 := by
  intro blocks
  induction blocks with
  | nil => intro prev _ _ c hc; simp [cbcEncBlocks] at hc
  | cons b bs ih =>
    intro prev hprev hlen c hc
    have hb : b.length = 16 := hlen b (by simp)
    have hxlen : (xorBytes prev b).length = 16 := by
      rw [xorBytes_length, hprev, hb]; simp
    simp only [cbcEncBlocks, List.mem_cons] at hc
    rcases hc with rfl | hc
    · exact hC.1 k _ hxlen
    · exact ih _ (hC.1 k _ hxlen) (fun u hu => hlen u (List.mem_cons_of_mem _ hu)) c hc

theorem cbcEncBlocks_lt (C : BlockCipher) (hC : GoodCipher C) (k : List Nat) :
    ∀ (blocks : List (List Nat)) (prev : List Nat), prev.length = 16 →
    (∀ b ∈ blocks, b.length = 16) → (∀ b ∈ blocks, ∀ x ∈ b, x < 256) →
    (∀ x ∈ prev, x < 256) →
    ∀ c ∈ cbcEncBlocks C k prev blocks, ∀ x ∈ c, x < 256 := by
  intro blocks
  induction blocks with
  | nil => intro prev _ _ _ _ c hc; simp [cbcEncBlocks] at hc
  | cons b bs ih =>
    intro prev hprev hlen hlt hplt c hc
    have hb : b.length = 16 := hlen b (by simp)
    have hxlen : (xorBytes prev b).length = 16 := by
      rw [xorBytes_length, hprev, hb]; simp
    have hxlt : ∀ x ∈ xorBytes prev b, x < 256 :=
      xorBytes_lt prev b hplt (hlt b (by simp))
    have henclt : ∀ x ∈ C.encB k (xorBytes prev b), x < 256 := hC.2.1 k _ hxlen hxlt
    simp only [cbcEncBlocks, List.mem_cons] at hc
    rcases hc with rfl | hc
    · exact henclt
    · exact ih _ (hC.1 k _ hxlen) (fun u hu => hlen u (List.mem_cons_of_mem _ hu))
        (fun u hu => hlt u (List.mem_cons_of_mem _ hu)) henclt c hc

theorem cbcDecBlocks_cbcEncBlocks (C : BlockCipher) (hC : GoodCipher C) (k : List Nat) :
    ∀ (blocks : List (List Nat)) (prev : List Nat), prev.length = 16 →
    (∀ b ∈ blocks, b.length = 16) →
    cbcDecBlocks C k prev (cbcEncBlocks C k prev blocks) = blocks := by
  intro blocks
  induction blocks with
  | nil => intro prev _ _; rfl
  | cons b bs ih =>
    intro prev hprev hlen
    have hb : b.length = 16 := hlen b (by simp)
    have hxlen : (xorBytes prev b).length = 16 := by
      rw [xorBytes_length, hprev, hb]; simp
    simp only [cbcEncBlocks, cbcDecBlocks]
    rw [hC.2.2 k _ hxlen]
    rw [xorBytes_cancel prev b (by rw [hprev, hb])]
    rw [ih _ (hC.1 k _ hxlen) (fun u hu => hlen u (List.mem_cons_of_mem _ hu))]

/-! ## Claim C2: decrypt inverts encrypt -/

theorem hexEncode_even (bs : List Nat) : (hexEncode bs).length % 2 = 0 := by
  rw [hexEncode_length]; omega

/-- C2: for every byte sequence P and every 256-bit secret K,
decrypting the envelope produced by encrypting P under K, using the
same K, yields exactly P (`decryptFile` inverts `encryptFile`,
src/encrypt_env.js lines 33-69), given the block-cipher contract of
the external AES primitive. -/
theorem decrypt_encrypt_roundtrip (C : BlockCipher) (hC : GoodCipher C)
    (K iv P : List Nat) (hK : K.length = 32) (hKb : ∀ b ∈ K, b < 256)
    (hiv : iv.length = 16) (hivb : ∀ b ∈ iv, b < 256) (hP : ∀ b ∈ P, b < 256) :
    decryptTransform C (hexEncode K) (encryptTransform C (hexEncode K) iv P) = Except.ok P := by
  have hKdec : hexDecode (hexEncode K) = K := hexDecode_hexEncode K hKb
  have hivdec : hexDecode (hexEncode iv) = iv := hexDecode_hexEncode iv hivb
  have hpadmod := pkcs7pad_mod P
  have hblen : ∀ b ∈ chunk16 (pkcs7pad P), b.length = 16 := chunk16_lengths _ hpadmod
  have hblt : ∀ b ∈ chunk16 (pkcs7pad P), ∀ x ∈ b, x < 256 := by
    intro b hb x hx
    exact pkcs7pad_lt P hP x (chunk16_subset _ b hb x hx)
  set ct := List.flatten (cbcEncBlocks C K iv (chunk16 (pkcs7pad P))) with hct
  have hclen : ∀ c ∈ cbcEncBlocks C K iv (chunk16 (pkcs7pad P)), c.length = 16 :=
    cbcEncBlocks_block_len C hC K _ iv hiv hblen
  have hctlt : ∀ x ∈ ct, x < 256 := by
    intro x hx
    rw [hct] at hx
    obtain ⟨c, hc, hxc⟩ := List.mem_flatten.mp hx
    exact cbcEncBlocks_lt C hC K _ iv hiv hblen hblt hivb c hc x hxc
  have hctdec : hexDecode (hexEncode ct) = ct := hexDecode_hexEncode ct hctlt
  have hctlen : ct.length = 16 * (chunk16 (pkcs7pad P)).length := by
    rw [hct, flatten_length_16 _ hclen, cbcEncBlocks_length]
  have hpadne : chunk16 (pkcs7pad P) ≠ [] := by
    obtain ⟨y, ys, hys⟩ : ∃ y ys, pkcs7pad P = y :: ys := by
      cases hpp : pkcs7pad P with
      | nil =>
        have hpos := pkcs7pad_pos P
        rw [hpp] at hpos
        simp at hpos
      | cons y ys => exact ⟨y, ys, rfl⟩
    rw [hys]
    exact chunk16_ne_nil y ys
  have hctpos : 0 < ct.length := by
    rw [hctlen]
    have hbl : 0 < (chunk16 (pkcs7pad P)).length := List.length_pos.mpr hpadne
    omega
  have hctmod : ct.length % 16 = 0 := by rw [hctlen]; omega
  have hchunkct : chunk16 ct = cbcEncBlocks C K iv (chunk16 (pkcs7pad P)) := by
    rw [hct]
    exact chunk16_flatten _ hclen
  simp only [encryptTransform, hKdec, ← hct]
  simp only [decryptTransform,
    jsSplit_envelope (hexEncode iv) (hexEncode ct)
      (sep_not_mem_hexEncode iv) (sep_not_mem_hexEncode ct)]
  simp only [List.headD, List.getElem?_cons_succ, List.getElem?_cons_zero]
  rw [if_neg (by rw [hKdec, hK]; omega)]
  rw [if_neg (by rw [hivdec, hiv]; omega)]
  rw [if_neg (by rw [hexEncode_length]; omega)]
  rw [if_neg (by rw [hctdec]; omega)]
  rw [hKdec, hivdec, hctdec, hchunkct,
    cbcDecBlocks_cbcEncBlocks C hC K _ iv hiv hblen, flatten_chunk16,
    pkcs7unpad_pkcs7pad]

/-! ## Claim C8: what decrypt actually does with the delimiter -/

/-- C8 (amended): `decryptFile` splits the envelope on ":" and uses the
text before the first delimiter as the iv hex and only the SECOND split
component — the text between the first and the second delimiter (to the
end when there is no second one) — as the ciphertext hex; content after
a second delimiter is ignored, and a missing delimiter fails. -/
theorem decrypt_uses_second_segment (C : BlockCipher) (keyHex data : List Nat) :
    decryptTransform C keyHex data = secondSegmentDecrypt C keyHex data := by
  simp only [decryptTransform, secondSegmentDecrypt, jsSplit_headD, jsSplit_getElem1]

/-! ## Orchestration lemmas -/

theorem encryptFileM_preserves (C : BlockCipher) (k iv : List Nat) (s : FsState) :
    (encryptFileM C k iv s).st.keyFile = s.keyFile ∧
    (encryptFileM C k iv s).st.keyFileMode = s.keyFileMode ∧
    (encryptFileM C k iv s).st.keyDirExists = s.keyDirExists ∧
    (encryptFileM C k iv s).st.metaFile = s.metaFile := by
  rcases s with ⟨kf, kfm, kde, ef, efm, mf⟩
  cases ef with
  | none => simp [encryptFileM]
  | some d =>
    simp only [encryptFileM]
    split <;> simp

theorem updateMetadataM_preserves (keyPath : String) (git : Option String) (now : String)
    (rot : Bool) (s : FsState) :
    (updateMetadataM keyPath git now rot s).st.keyFile = s.keyFile ∧
    (updateMetadataM keyPath git now rot s).st.keyFileMode = s.keyFileMode ∧
    (updateMetadataM keyPath git now rot s).st.keyDirExists = s.keyDirExists ∧
    (updateMetadataM keyPath git now rot s).st.envFile = s.envFile := by
  rcases s with ⟨kf, kfm, kde, ef, efm, mf⟩
  cases kf with
  | none => simp [updateMetadataM]
  | some kd => cases git <;> simp [updateMetadataM]

theorem encryptThenMeta_keyFields (C : BlockCipher) (kd : KeyRecord) (git : Option String)
    (now keyPath : String) (iv : List Nat) (rot : Bool) (s : FsState) (ev0 : List Event) :
    (encryptThenMeta C kd git now keyPath iv rot s ev0).st.keyFile = s.keyFile ∧
    (encryptThenMeta C kd git now keyPath iv rot s ev0).st.keyFileMode = s.keyFileMode ∧
    (encryptThenMeta C kd git now keyPath iv rot s ev0).st.keyDirExists = s.keyDirExists ∧
    ∃ t, (encryptThenMeta C kd git now keyPath iv rot s ev0).trace = ev0 ++ t := by
  have hE := encryptFileM_preserves C kd.key iv s
  have hU := updateMetadataM_preserves keyPath git now rot (encryptFileM C kd.key iv s).st
  simp only [encryptThenMeta]
  cases hres : (encryptFileM C kd.key iv s).res with
  | error e => exact ⟨hE.1, hE.2.1, hE.2.2.1, _, rfl⟩
  | ok u =>
    refine ⟨hU.1.trans hE.1, hU.2.1.trans hE.2.1, hU.2.2.1.trans hE.2.2.1,
      (encryptFileM C kd.key iv s).trace ++
        (updateMetadataM keyPath git now rot (encryptFileM C kd.key iv s).st).trace, ?_⟩
    rw [List.append_assoc]

theorem runRotate_eq (C : BlockCipher) (ent : Entropy) (git : Option String)
    (now keyPath : String) (s : FsState) :
    runRotate C ent git now keyPath s =
      encryptThenMeta C ⟨hexEncode ent.newKeyBytes, hexEncode ent.newTokenBytes⟩ git now
        keyPath ent.iv true
        (saveKeyM ⟨hexEncode ent.newKeyBytes, hexEncode ent.newTokenBytes⟩ s).1
        (saveKeyM ⟨hexEncode ent.newKeyBytes, hexEncode ent.newTokenBytes⟩ s).2 := rfl

theorem saveKeyM_trace (kd : KeyRecord) (s : FsState) :
    (saveKeyM kd s).2 = [Event.savedKey kd] := rfl

theorem saveKeyM_keyFile (kd : KeyRecord) (s : FsState) :
    (saveKeyM kd s).1.keyFile = some kd := rfl

/-! ## Claim C4: the binding gate -/

/-- C4: when the stored key's validation token differs from the
metadata's token, the decrypt branch of `main` (src/encrypt_env.js
lines 143-149) fails with the binding-mismatch error before any cipher
operation is attempted, and leaves the whole state — in particular the
protected file — untouched. -/
theorem binding_gate_blocks_decrypt (C : BlockCipher) (s : FsState) (kd : KeyRecord)
    (m : EnvMetadata) (hk : s.keyFile = some kd) (hm : s.metaFile = some m)
    (hne : kd.validation_token ≠ m.validation_token) :
    runDecrypt C s = ⟨s, [], .error (.bindingMismatch m.last_encrypted_by m.timestamp)⟩ := by
  simp [runDecrypt, hk, hm, validateKeyM, hne]

theorem binding_gate_blocks_decrypt_witness :
    runDecrypt xorCipher ⟨some ⟨[97], [97]⟩, some 384, true, some [48], none,
        some ⟨"bob", "kp", "stable", [98], "t0"⟩⟩ =
      ⟨⟨some ⟨[97], [97]⟩, some 384, true, some [48], none,
        some ⟨"bob", "kp", "stable", [98], "t0"⟩⟩, [],
       .error (.bindingMismatch "bob" "t0")⟩ :=
  binding_gate_blocks_decrypt xorCipher _ _ _ rfl rfl (by decide)

/-! ## Claim C5: rotate persists the new key first -/

/-- C5: in the rotate branch of `main` (src/encrypt_env.js lines
150-156) the new key record, built from the fresh random key and fresh
random token, is saved as the very first action of the run — before the
re-encryption of the protected file is attempted — and it is in the
key file in every outcome; every attempted cipher operation occurs
strictly later in the trace. -/
theorem rotate_persists_key_before_reencrypt (C : BlockCipher) (ent : Entropy)
    (git : Option String) (now keyPath : String) (s : FsState) :
    (runRotate C ent git now keyPath s).trace.head? =
      some (Event.savedKey ⟨hexEncode ent.newKeyBytes, hexEncode ent.newTokenBytes⟩) ∧
    (runRotate C ent git now keyPath s).st.keyFile =
      some ⟨hexEncode ent.newKeyBytes, hexEncode ent.newTokenBytes⟩ ∧
    ∀ i, (runRotate C ent git now keyPath s).trace[i]? = some Event.cipherOp → 0 < i := by
  obtain ⟨hkf, -, -, t, ht⟩ := encryptThenMeta_keyFields C
    ⟨hexEncode ent.newKeyBytes, hexEncode ent.newTokenBytes⟩ git now keyPath ent.iv true
    (saveKeyM ⟨hexEncode ent.newKeyBytes, hexEncode ent.newTokenBytes⟩ s).1
    (saveKeyM ⟨hexEncode ent.newKeyBytes, hexEncode ent.newTokenBytes⟩ s).2
  refine ⟨?_, ?_, ?_⟩
  · rw [runRotate_eq, ht, saveKeyM_trace]
    rfl
  · rw [runRotate_eq]
    exact hkf.trans (saveKeyM_keyFile _ _)
  · intro i h
    rw [runRotate_eq, ht, saveKeyM_trace] at h
    cases i with
    | zero => simp at h
    | succ n => omega

theorem rotate_persists_key_before_reencrypt_witness :
    (runRotate xorCipher ⟨List.replicate 32 4, List.replicate 16 5, List.replicate 16 6⟩
        (some "alice") "t2" "kp" ⟨none, none, false, none, none, none⟩).trace.head? =
      some (Event.savedKey ⟨hexEncode (List.replicate 32 4), hexEncode (List.replicate 16 5)⟩) :=
  (rotate_persists_key_before_reencrypt xorCipher _ _ _ _ _).1

/-! ## Claim C6: key persistence creates directories and restricts permissions -/

/-- C6: whenever the key record is persisted — on a first encrypt (no
key file yet) and on every rotate — `saveKey` (src/encrypt_env.js lines
24-27) creates the missing parent directories (`mkdirSync` with
`recursive: true`) and writes the key file with permissions 0o600
(owner read/write only), and nothing later in the run changes that. -/
theorem key_persist_creates_dir_and_restricts_mode (C : BlockCipher) (ent : Entropy)
    (git : Option String) (now keyPath : String) (s s2 : FsState) (h : s.keyFile = none) :
    ((runEncrypt C ent git now keyPath s).st.keyDirExists = true ∧
     (runEncrypt C ent git now keyPath s).st.keyFileMode = some 0o600) ∧
    ((runRotate C ent git now keyPath s2).st.keyDirExists = true ∧
     (runRotate C ent git now keyPath s2).st.keyFileMode = some 0o600) := by
  constructor
  · have hrE : runEncrypt C ent git now keyPath s =
        encryptThenMeta C ⟨hexEncode ent.newKeyBytes, hexEncode ent.newTokenBytes⟩ git now
          keyPath ent.iv false
          (saveKeyM ⟨hexEncode ent.newKeyBytes, hexEncode ent.newTokenBytes⟩ s).1
          (saveKeyM ⟨hexEncode ent.newKeyBytes, hexEncode ent.newTokenBytes⟩ s).2 := by
      unfold runEncrypt
      rw [h]
    obtain ⟨-, hmode, hdir, -⟩ := encryptThenMeta_keyFields C
      ⟨hexEncode ent.newKeyBytes, hexEncode ent.newTokenBytes⟩ git now keyPath ent.iv false
      (saveKeyM ⟨hexEncode ent.newKeyBytes, hexEncode ent.newTokenBytes⟩ s).1
      (saveKeyM ⟨hexEncode ent.newKeyBytes, hexEncode ent.newTokenBytes⟩ s).2
    rw [hrE]
    exact ⟨hdir.trans rfl, hmode.trans rfl⟩
  · obtain ⟨-, hmode, hdir, -⟩ := encryptThenMeta_keyFields C
      ⟨hexEncode ent.newKeyBytes, hexEncode ent.newTokenBytes⟩ git now keyPath ent.iv true
      (saveKeyM ⟨hexEncode ent.newKeyBytes, hexEncode ent.newTokenBytes⟩ s2).1
      (saveKeyM ⟨hexEncode ent.newKeyBytes, hexEncode ent.newTokenBytes⟩ s2).2
    rw [runRotate_eq]
    exact ⟨hdir.trans rfl, hmode.trans rfl⟩

theorem key_persist_creates_dir_and_restricts_mode_witness :
    (runEncrypt xorCipher ⟨List.replicate 32 1, List.replicate 16 2, List.replicate 16 3⟩
        (some "alice") "t1" "kp" ⟨none, none, false, none, none, none⟩).st.keyDirExists = true :=
  (key_persist_creates_dir_and_restricts_mode xorCipher _ (some "alice") "t1" "kp"
    ⟨none, none, false, none, none, none⟩ ⟨none, none, false, none, none, none⟩ rfl).1.1

/-! ## Claim C7: the mismatch error names operator and timestamp -/

/-- C7: on a validation-token mismatch, `validateKey` (src/encrypt_env.js
lines 89-95) produces the binding-mismatch error carrying the
`last_encrypted_by` and `timestamp` fields of the stale metadata
record, and the thrown message interpolates exactly those two fields. -/
theorem mismatch_error_names_operator_and_timestamp (kd : KeyRecord) (m : EnvMetadata)
    (h : kd.validation_token ≠ m.validation_token) :
    validateKeyM kd m = .error (.bindingMismatch m.last_encrypted_by m.timestamp) ∧
    validationFailureMessage m.last_encrypted_by m.timestamp =
      "Validation failed. The key used is not compatible with the metadata. Last encrypted by: "
        ++ m.last_encrypted_by ++ " at " ++ m.timestamp := by
  constructor
  · unfold validateKeyM
    rw [if_pos h]
  · rfl

theorem mismatch_error_names_operator_and_timestamp_witness :
    validateKeyM ⟨[97], [97]⟩ ⟨"carol", "kp", "stable", [99], "2024-01-01"⟩ =
      .error (.bindingMismatch "carol" "2024-01-01") :=
  (mismatch_error_names_operator_and_timestamp _ _ (by decide)).1

/-! ## Claim C9: a failed decrypt transform leaves the file unchanged -/

/-- C9: in the decrypt branch, when the binding check passes but the
cipher transform itself fails (malformed envelope, wrong lengths, bad
padding), the run fails and the state — in particular the protected
file's content — is exactly as before, because `decryptFile`
(src/encrypt_env.js lines 53-69) writes the file only after
`decipher.final()` has succeeded. -/
theorem decrypt_failure_leaves_file_unchanged (C : BlockCipher) (s : FsState)
    (kd : KeyRecord) (m : EnvMetadata) (d : List Nat) (e : CErr)
    (hk : s.keyFile = some kd) (hm : s.metaFile = some m)
    (ht : kd.validation_token = m.validation_token)
    (hd : s.envFile = some d)
    (he : decryptTransform C kd.key d = .error e) :
    runDecrypt C s = ⟨s, [Event.cipherOp], .error (.decryptionFailed e)⟩ := by
  simp [runDecrypt, hk, hm, validateKeyM, ht, decryptFileM, hd, he]

theorem decrypt_failure_leaves_file_unchanged_witness :
    runDecrypt xorCipher ⟨some ⟨[97], [97]⟩, some 384, true, some [48, 48], none,
        some ⟨"bob", "kp", "stable", [97], "t0"⟩⟩ =
      ⟨⟨some ⟨[97], [97]⟩, some 384, true, some [48, 48], none,
        some ⟨"bob", "kp", "stable", [97], "t0"⟩⟩, [Event.cipherOp],
       .error (.decryptionFailed .badKey)⟩ :=
  decrypt_failure_leaves_file_unchanged xorCipher _ _ _ _ _ rfl rfl rfl rfl (by decide)

/-! ## Claim C10: encrypt overwrites the file before resolving the identity -/

/-- C10: in the encrypt branch (src/encrypt_env.js lines 128-142) the
protected file is overwritten with the ciphertext by `encryptFile`
BEFORE `updateMetadata` resolves the git identity; hence when the git
identity is unavailable the run fails with the file already encrypted
and the metadata record exactly as it was before (unwritten, or holding
its previous content). -/
theorem encrypt_overwrites_before_identity (C : BlockCipher) (ent : Entropy)
    (now keyPath : String) (s : FsState) (kd : KeyRecord) (d : List Nat)
    (hk : s.keyFile = some kd) (hd : s.envFile = some d)
    (hkey : (hexDecode kd.key).length = 32) :
    runEncrypt C ent none now keyPath s =
      ⟨{ s with envFile := some (encryptTransform C kd.key ent.iv d),
                envFileMode := some 0o600 },
       [Event.cipherOp, Event.wroteEnv (encryptTransform C kd.key ent.iv d)],
       .error .gitNotConfigured⟩ := by
  simp [runEncrypt, hk, encryptThenMeta, encryptFileM, hd, hkey, updateMetadataM]

theorem encrypt_overwrites_before_identity_witness :
    runEncrypt xorCipher ⟨[], [], List.replicate 16 7⟩ none "t0" "kp"
        ⟨some ⟨hexEncode (List.replicate 32 9), [97]⟩, some 384, true,
         some [104, 105], none, none⟩ =
      ⟨⟨some ⟨hexEncode (List.replicate 32 9), [97]⟩, some 384, true,
        some (encryptTransform xorCipher (hexEncode (List.replicate 32 9))
          (List.replicate 16 7) [104, 105]), some 384, none⟩,
       [Event.cipherOp, Event.wroteEnv (encryptTransform xorCipher
          (hexEncode (List.replicate 32 9)) (List.replicate 16 7) [104, 105])],
       .error .gitNotConfigured⟩ :=
  encrypt_overwrites_before_identity xorCipher _ _ _ _ _ _ rfl rfl (by decide)

/-! ## The concrete witness cipher satisfies the block-cipher contract -/

theorem keyStream_length (k : List Nat) : (keyStream k).length = 16 := by
  simp only [keyStream, List.length_take, List.length_append, List.length_map,
    List.length_replicate]
  omega

theorem keyStream_lt (k : List Nat) : ∀ x ∈ keyStream k, x < 256 := by
  intro x hx
  have hx2 := List.take_subset _ _ hx
  rcases List.mem_append.mp hx2 with hx3 | hx3
  · obtain ⟨y, -, rfl⟩ := List.mem_map.mp hx3
    omega
  · rw [List.eq_of_mem_replicate hx3]
    omega

theorem xorCipher_good : GoodCipher xorCipher := by
  refine ⟨?_, ?_, ?_⟩
  · intro k b hb
    show (xorBytes (keyStream k) b).length = 16
    rw [xorBytes_length, keyStream_length, hb]
    simp
  · intro k b _ hlt
    exact xorBytes_lt _ _ (keyStream_lt k) hlt
  · intro k b hb
    show xorBytes (keyStream k) (xorBytes (keyStream k) b) = b
    exact xorBytes_cancel _ _ (by rw [keyStream_length, hb])

theorem decrypt_encrypt_roundtrip_witness :
    decryptTransform xorCipher (hexEncode (List.replicate 32 5))
      (encryptTransform xorCipher (hexEncode (List.replicate 32 5))
        (List.replicate 16 9) [104, 105]) = Except.ok [104, 105] :=
  decrypt_encrypt_roundtrip xorCipher xorCipher_good (List.replicate 32 5)
    (List.replicate 16 9) [104, 105] (by decide) (by decide) (by decide) (by decide)
    (by decide)

/-! ## Claim C3: tampering with the ciphertext portion -/

/-- C3 counterexample: a valid three-block envelope in which the single
envelope byte at index 33 — inside the ciphertext portion, which starts
right after the delimiter at index 32 — is changed from `52` to `53`,
yet decryption under the correct key SUCCEEDS and silently returns
corrupted plaintext instead of failing: plain CBC without an
authentication tag only checks the PKCS#7 padding of the last block. -/
theorem tamper_not_detected_counterexample :
    (encryptTransform xorCipher (hexEncode (List.replicate 32 0)) (List.replicate 16 0)
        (List.replicate 33 65)).getD 32 0 = 58 ∧
    (encryptTransform xorCipher (hexEncode (List.replicate 32 0)) (List.replicate 16 0)
        (List.replicate 33 65)).getD 33 0 = 52 ∧
    decryptTransform xorCipher (hexEncode (List.replicate 32 0))
        ((encryptTransform xorCipher (hexEncode (List.replicate 32 0)) (List.replicate 16 0)
          (List.replicate 33 65)).set 33 53) =
      Except.ok ([81] ++ List.replicate 15 65 ++ [81] ++ List.replicate 16 65) ∧
    ([81] ++ List.replicate 15 65 ++ [81] ++ List.replicate 16 65) ≠
      List.replicate 33 65 := by
  decide

set_option maxRecDepth 20000 in
/-- C3 (amended): flipping a single byte of a valid envelope's
ciphertext portion does NOT always cause decrypt to fail: there are
valid envelopes and single-byte modifications inside the ciphertext
portion for which decrypt under the correct key succeeds and returns
plaintext different from the original — the scheme is unauthenticated
CBC, so only modifications that break the padding check are refused. -/
theorem tamper_not_always_detected :
    ∃ (K iv P env envT Q : List Nat) (i v : Nat),
      K.length = 32 ∧ iv.length = 16 ∧
      env = encryptTransform xorCipher (hexEncode K) iv P ∧
      decryptTransform xorCipher (hexEncode K) env = Except.ok P ∧
      env.getD 32 0 = 58 ∧ 32 < i ∧ i < env.length ∧ env.getD i 0 ≠ v ∧
      envT = env.set i v ∧
      decryptTransform xorCipher (hexEncode K) envT = Except.ok Q ∧ Q ≠ P :=
  ⟨List.replicate 32 0, List.replicate 16 0, List.replicate 33 65,
   encryptTransform xorCipher (hexEncode (List.replicate 32 0)) (List.replicate 16 0)
     (List.replicate 33 65),
   (encryptTransform xorCipher (hexEncode (List.replicate 32 0)) (List.replicate 16 0)
     (List.replicate 33 65)).set 33 53,
   [81] ++ List.replicate 15 65 ++ [81] ++ List.replicate 16 65, 33, 53, by decide⟩

/-! ## Claim C8 counterexample -/

/-- C8 counterexample: on the envelope obtained by appending one stray
delimiter to a valid envelope, `decryptFile`'s actual split (second
component only) still succeeds and returns the plaintext, while the
behaviour the claim describes — everything after the first delimiter,
further delimiters included, taken as the ciphertext hex — would reject
the input (odd-length hex), so the claim's description and the code
disagree at this input. -/
theorem decrypt_not_first_split_counterexample :
    decryptTransform xorCipher (hexEncode (List.replicate 32 0))
        (encryptTransform xorCipher (hexEncode (List.replicate 32 0)) (List.replicate 16 0) [1]
          ++ [58]) = Except.ok [1] ∧
    claimFirstSplitDecrypt xorCipher (hexEncode (List.replicate 32 0))
        (encryptTransform xorCipher (hexEncode (List.replicate 32 0)) (List.replicate 16 0) [1]
          ++ [58]) = Except.error CErr.oddHexLen ∧
    claimFirstSplitDecrypt xorCipher (hexEncode (List.replicate 32 0))
        (encryptTransform xorCipher (hexEncode (List.replicate 32 0)) (List.replicate 16 0) [1]
          ++ [58]) ≠
      decryptTransform xorCipher (hexEncode (List.replicate 32 0))
        (encryptTransform xorCipher (hexEncode (List.replicate 32 0)) (List.replicate 16 0) [1]
          ++ [58]) := by
  decide

/-! ## Claim C1: what rotate actually protects -/

set_option maxRecDepth 40000 in
/-- C1 (code bug): following scenario A (encrypt of `secret=1`), rotate
generates and saves a fresh key/token pair and writes metadata with
status "rotated", but it re-encrypts the protected file's CURRENT
content — the old envelope — without decrypting it first; the
subsequent decrypt under the new key therefore succeeds yet restores
the protected file to the OLD ENVELOPE, not to the original plaintext
`secret=1`, which is now unreachable because the old key has been
overwritten. -/
theorem rotate_reencrypts_envelope_not_plaintext :
    afterEncrypt.res = Except.ok () ∧
    afterEncrypt.st.envFile = some envelopeA ∧
    afterRotate.res = Except.ok () ∧
    afterRotate.st.metaFile.map EnvMetadata.key_status = some "rotated" ∧
    afterRotate.st.keyFile =
      some ⟨hexEncode (List.replicate 32 4), hexEncode (List.replicate 16 5)⟩ ∧
    afterRotateDecrypt.res = Except.ok () ∧
    afterRotateDecrypt.st.envFile = some envelopeA ∧
    envelopeA ≠ [115, 101, 99, 114, 101, 116, 61, 49] := by
  decide
